import Mathlib

/-!
Shallow embedding of `src/shared/ebm_native/EbmInternal.h` (interpret, C++).
`size_t` is modelled as `Nat` restricted to `[0, sizeTMax]` with explicit
wraparound where the C code relies on it; `ptrdiff_t` is modelled as `Int`
with C truncated division written `Int.div`; C strings are modelled as lists
of nonzero byte values.
-/

namespace EbmInternal

/-- Maximum value of a 64-bit `size_t` (`std::numeric_limits<size_t>::max()`). -/
def sizeTMax : Nat := 2 ^ 64 - 1

/-- `IsMultiplyError(num1, num2)` from EbmInternal.h:
`0 != num1 && ((std::numeric_limits<size_t>::max() - num1 + 1) / num1 < num2)`.
For `num1 <= sizeTMax` the unsigned expression `max - num1 + 1` does not wrap,
so plain `Nat` arithmetic is the faithful model; the `&&` short-circuit that
guards the division in C is mirrored by `Bool.and`. -/
def IsMultiplyError (num1 num2 : Nat) : Bool :=
  decide (0 ≠ num1) && decide ((sizeTMax - num1 + 1) / num1 < num2)

/-- `IsAddError(num1, num2)` from EbmInternal.h: `num1 + num2 < num1` where the
sum wraps modulo `2^64` (unsigned overflow is defined behavior in C++). -/
def IsAddError (num1 num2 : Nat) : Bool :=
  decide ((num1 + num2) % (sizeTMax + 1) < num1)

/-- The integer types `IsNumberConvertable` ranges over: a signedness flag and
a bit width (`int8_t` is `⟨true, 8⟩`, `uint64_t` is `⟨false, 64⟩`, ...). -/
structure CIntType where
  signed : Bool
  bits : Nat
deriving DecidableEq

/-- `std::numeric_limits<T>::lowest()` for an integer type. -/
def typeMin (t : CIntType) : Int :=
  if t.signed then -(2 ^ (t.bits - 1)) else 0

/-- `std::numeric_limits<T>::max()` for an integer type. -/
def typeMax (t : CIntType) : Int :=
  if t.signed then 2 ^ (t.bits - 1) - 1 else 2 ^ t.bits - 1

/-- `x` is a value representable in the integer type `t`. -/
def Representable (t : CIntType) (x : Int) : Prop :=
  typeMin t ≤ x ∧ x ≤ typeMax t

/-- `IsNumberConvertable<TTo, TFrom>(number)` from EbmInternal.h.  The C
comparisons in each arm are value-preserving after the usual arithmetic
conversions (the negative case of a signed `number` is short-circuited before
the unsigned `max` comparison), so each arm is modelled by the mathematical
comparison on `Int` that the C code computes:
to-signed/from-signed checks `lowest <= number && number <= max`;
to-signed/from-unsigned checks `number <= max`;
to-unsigned/from-signed checks `0 <= number && number <= max`;
to-unsigned/from-unsigned checks `number <= max`. -/
def IsNumberConvertable (TTo TFrom : CIntType) (number : Int) : Bool :=
  if TTo.signed then
    if TFrom.signed then decide (typeMin TTo ≤ number ∧ number ≤ typeMax TTo)
    else decide (number ≤ typeMax TTo)
  else
    if TFrom.signed then decide (0 ≤ number ∧ number ≤ typeMax TTo)
    else decide (number ≤ typeMax TTo)

/-- `EbmMalloc<T>(cItems, cBytesPerItem)` (the two-size_t-argument overload).
`malloc` is an arbitrary allocator returning `none` on out-of-memory; the
function returns `none` (C `nullptr`) when the multiply check fires. -/
def EbmMallocCount (malloc : Nat → Option Nat) (cItems cBytesPerItem : Nat) :
    Option Nat :=
  if IsMultiplyError cItems cBytesPerItem then none
  else malloc (cItems * cBytesPerItem)

/-- `EbmMalloc<T>(cItems)` (the single-size_t-argument overload), with
`cBytesPerItem = sizeof(T)` passed explicitly.  When `sizeof(T) == 1` the code
calls `malloc(cItems)` directly with no overflow check (`bOneByte` branch). -/
def EbmMallocSizeof (malloc : Nat → Option Nat) (cBytesPerItem : Nat)
    (cItems : Nat) : Option Nat :=
  if cBytesPerItem = 1 then malloc cItems
  else if IsMultiplyError cItems cBytesPerItem then none
  else malloc (cItems * cBytesPerItem)

/-- `CountBitsRequired(maxValue)` from EbmInternal.h (for `T = size_t`):
`0 == maxValue ? 0 : 1 + CountBitsRequired(maxValue / 2)`. -/
def CountBitsRequired (maxValue : Nat) : Nat :=
  if h : maxValue = 0 then 0 else 1 + CountBitsRequired (maxValue / 2)
termination_by maxValue
decreasing_by omega

/-- `CountBitsRequiredPositiveMax<size_t>()` = `CountBitsRequired(SIZE_MAX)`. -/
def CountBitsRequiredPositiveMaxSizeT : Nat := CountBitsRequired sizeTMax

/-- `k_cBitsForSizeT` from EbmInternal.h. -/
def k_cBitsForSizeT : Nat := CountBitsRequiredPositiveMaxSizeT

/-- `k_cBitsForStorageType` from EbmInternal.h (`StorageDataType` = `size_t`). -/
def k_cBitsForStorageType : Nat := CountBitsRequiredPositiveMaxSizeT

/-- `GetCountBits(cItemsBitPacked)` from EbmInternal.h. -/
def GetCountBits (cItemsBitPacked : Nat) : Nat :=
  k_cBitsForStorageType / cItemsBitPacked

/-- `k_cItemsPerBitPackDynamic` (the `size_t` sentinel set, value 0). -/
def k_cItemsPerBitPackDynamic : Nat := 0

/-- `k_cItemsPerBitPackMin` (the `size_t` sentinel set, value 0). -/
def k_cItemsPerBitPackMin : Nat := 0

/-- `GetNextCountItemsBitPacked(cItemsBitPackedPrev)` from EbmInternal.h. -/
def GetNextCountItemsBitPacked (cItemsBitPackedPrev : Nat) : Nat :=
  if k_cItemsPerBitPackMin = cItemsBitPackedPrev then k_cItemsPerBitPackDynamic
  else k_cBitsForStorageType / (k_cBitsForStorageType / cItemsBitPackedPrev + 1)

/-- `k_cItemsPerBitPackDynamic2` (`ptrdiff_t` 0). -/
def k_cItemsPerBitPackDynamic2 : Int := 0

/-- `k_cItemsPerBitPackMin2` (`ptrdiff_t` 1). -/
def k_cItemsPerBitPackMin2 : Int := 1

/-- `GetNextBitPack(cItemsBitPackedPrev)` from EbmInternal.h, on `ptrdiff_t`;
`Int.tdiv` is C truncated division. -/
def GetNextBitPack (cItemsBitPackedPrev : Int) : Int :=
  if k_cItemsPerBitPackMin2 = cItemsBitPackedPrev then k_cItemsPerBitPackDynamic2
  else Int.tdiv (k_cBitsForStorageType : Int)
    (Int.tdiv (k_cBitsForStorageType : Int) cItemsBitPackedPrev + 1)

/-- The sequence obtained by iterating the progression step
`next = w / (w / prev + 1)` starting from `prev`, terminating after the value 1
(the code then yields the dynamic sentinel 0 and the chain stops).  `fuel`
bounds the recursion; `w` steps of fuel always suffice. -/
def packSeq (w : Nat) : Nat → Nat → List Nat
  | 0, _ => []
  | fuel + 1, prev =>
    if prev = 0 then []
    else prev :: packSeq w fuel (if prev = 1 then 0 else w / (w / prev + 1))

/-- The canonical bit-pack progression: start at the storage word width and
iterate the progression step. -/
def bitPackProgression : List Nat :=
  packSeq k_cBitsForStorageType k_cBitsForStorageType k_cBitsForStorageType

/-- `k_regression` (`ptrdiff_t` -1). -/
def k_regression : Int := -1

/-- `k_dynamicClassification` (`ptrdiff_t` 0). -/
def k_dynamicClassification : Int := 0

/-- `IsRegression(learningTypeOrCountTargetClasses)` from EbmInternal.h. -/
def IsRegression (learningTypeOrCountTargetClasses : Int) : Bool :=
  decide (k_regression = learningTypeOrCountTargetClasses)

/-- `IsClassification(learningTypeOrCountTargetClasses)` from EbmInternal.h. -/
def IsClassification (learningTypeOrCountTargetClasses : Int) : Bool :=
  decide (0 ≤ learningTypeOrCountTargetClasses)

/-- `IsBinaryClassification` (default policy, `EXPAND_BINARY_LOGITS` not set). -/
def IsBinaryClassification (learningTypeOrCountTargetClasses : Int) : Bool :=
  decide ((2 : Int) = learningTypeOrCountTargetClasses)

/-- `IsBinaryClassification` under `EXPAND_BINARY_LOGITS`: constant false
(the argument is voided by the `UNUSED` macro). -/
def IsBinaryClassificationExpand (_learningTypeOrCountTargetClasses : Int) :
    Bool :=
  false

/-- `IsMulticlass` (default policy). -/
def IsMulticlass (learningTypeOrCountTargetClasses : Int) : Bool :=
  IsClassification learningTypeOrCountTargetClasses &&
    !(IsBinaryClassification learningTypeOrCountTargetClasses)

/-- `IsMulticlass` under `EXPAND_BINARY_LOGITS`. -/
def IsMulticlassExpand (learningTypeOrCountTargetClasses : Int) : Bool :=
  IsClassification learningTypeOrCountTargetClasses &&
    !(IsBinaryClassificationExpand learningTypeOrCountTargetClasses)

/-- `GetVectorLength` (default policy): `n <= 2 ? 1 : (size_t)n`. -/
def GetVectorLength (learningTypeOrCountTargetClasses : Int) : Nat :=
  if learningTypeOrCountTargetClasses ≤ 2 then 1
  else learningTypeOrCountTargetClasses.toNat

/-- `GetVectorLength` under `EXPAND_BINARY_LOGITS`: `n <= 1 ? 1 : (size_t)n`. -/
def GetVectorLengthExpand (learningTypeOrCountTargetClasses : Int) : Nat :=
  if learningTypeOrCountTargetClasses ≤ 1 then 1
  else learningTypeOrCountTargetClasses.toNat

/-- The whitespace test used by `SkipWhitespace` and
`IsStringEqualsCaseInsensitive`: `0x20 == c || 0x9 <= c && c <= 0xd`. -/
def isWhitespaceChar (c : Nat) : Bool :=
  decide (c = 0x20) || (decide (0x9 ≤ c) && decide (c ≤ 0xd))

/-- The per-character lowercasing both loops apply:
`if ('A' <= c && c <= 'Z') c += 'a' - 'A'`. -/
def toLowerChar (c : Nat) : Nat :=
  if 65 ≤ c ∧ c ≤ 90 then c + 32 else c

/-- `SkipWhitespace(s)` from EbmInternal.h; a C string is a list of its
nonzero bytes, and the NUL terminator (modelled by the list end) is not
whitespace, so the loop stops there. -/
def SkipWhitespace : List Nat → List Nat
  | [] => []
  | c :: s => if isWhitespaceChar c then SkipWhitespace s else c :: s

/-- The label-matching loop of `IsStringEqualsCaseInsensitive`: runs once the
leading whitespace of `sMain` has been skipped.  Reading `*sMain` at the end
of the string yields the NUL byte, modelled by `List.headD _ 0`. -/
def matchLoop : List Nat → List Nat → Option (List Nat)
  | sMain, [] => some (SkipWhitespace sMain)
  | sMain, labelChar :: sLabelRest =>
    if toLowerChar (sMain.headD 0) = toLowerChar labelChar then
      matchLoop sMain.tail sLabelRest
    else none

/-- `IsStringEqualsCaseInsensitive(sMain, sLabel)` from EbmInternal.h:
skip leading whitespace of `sMain`, match `sLabel` case-insensitively, then
skip trailing whitespace; `none` models the C `nullptr` result and
`some rest` models a pointer to the first non-whitespace character after the
match (`rest` is the remaining suffix of `sMain`). -/
def IsStringEqualsCaseInsensitive (sMain sLabel : List Nat) :
    Option (List Nat) :=
  matchLoop (SkipWhitespace sMain) sLabel

/-! ### Helper lemmas -/

/-- Unfolding rule for `CountBitsRequired`. -/
theorem countBitsRequired_unfold (m : Nat) :
    CountBitsRequired m = if m = 0 then 0 else 1 + CountBitsRequired (m / 2) := by
  rw [CountBitsRequired]
  split <;> simp_all

/-- `CountBitsRequired m` yields enough bits: `m < 2 ^ CountBitsRequired m`. -/
theorem countBitsRequired_lt_pow (m : Nat) : m < 2 ^ CountBitsRequired m := by
  induction m using Nat.strong_induction_on with
  | _ m ih =>
    rw [countBitsRequired_unfold]
    split
    · simp_all
    · next h =>
      have h2 := ih (m / 2) (by omega)
      have hp : 2 ^ (1 + CountBitsRequired (m / 2)) =
          2 * 2 ^ CountBitsRequired (m / 2) := by
        rw [pow_add]; ring
      omega

/-- `CountBitsRequired m` is minimal among bit widths `w` with `m < 2 ^ w`. -/
theorem countBitsRequired_min (m : Nat) :
    ∀ w : Nat, m < 2 ^ w → CountBitsRequired m ≤ w := by
  induction m using Nat.strong_induction_on with
  | _ m ih =>
    intro w hw
    rw [countBitsRequired_unfold]
    split
    · omega
    · next h =>
      match w with
      | 0 => simp at hw; omega
      | v + 1 =>
        have hp : 2 ^ (v + 1) = 2 * 2 ^ v := by rw [pow_succ]; ring
        have h2 : m / 2 < 2 ^ v := by omega
        have h3 := ih (m / 2) (by omega) v h2
        omega

/-- The storage word holds 64 bits: `k_cBitsForStorageType = 64`. -/
theorem k_cBitsForStorageType_eq : k_cBitsForStorageType = 64 := by
  have h1 : sizeTMax < 2 ^ 64 := by norm_num [sizeTMax]
  have h2 := countBitsRequired_min sizeTMax 64 h1
  have h7 : 2 ^ 64 ≤ 2 ^ CountBitsRequired sizeTMax := by
    have h3 := countBitsRequired_lt_pow sizeTMax
    have h4 : sizeTMax = 2 ^ 64 - 1 := rfl
    rw [h4] at h3
    exact Nat.le_of_pred_lt h3
  have h8 : 64 ≤ CountBitsRequired sizeTMax :=
    (pow_le_pow_iff_right₀ (by norm_num : (1 : Nat) < 2)).mp h7
  exact le_antisymm h2 h8

/-- The concrete value of the 64-bit canonical progression. -/
theorem bitPackProgression_eq :
    bitPackProgression = [64, 32, 21, 16, 12, 10, 9, 8, 7, 6, 5, 4, 3, 2, 1] := by
  unfold bitPackProgression
  rw [k_cBitsForStorageType_eq]
  decide

/-- `IsAddError` is exact: it fires precisely when the true sum exceeds
`sizeTMax`. -/
theorem isAddError_iff (num1 num2 : Nat) (h1 : num1 ≤ sizeTMax)
    (h2 : num2 ≤ sizeTMax) : IsAddError num1 num2 = true ↔ sizeTMax < num1 + num2 := by
  simp only [IsAddError, decide_eq_true_eq]
  rcases Nat.lt_or_ge (num1 + num2) (sizeTMax + 1) with hlt | hge
  · rw [Nat.mod_eq_of_lt hlt]
    omega
  · have hmod : (num1 + num2) % (sizeTMax + 1) = num1 + num2 - (sizeTMax + 1) := by
      rw [Nat.mod_eq_sub_mod hge, Nat.mod_eq_of_lt (by omega)]
    omega

/-- `IsMultiplyError` is complete: a true unsigned overflow always fires it. -/
theorem isMultiplyError_of_overflow (num1 num2 : Nat) (h1 : num1 ≤ sizeTMax)
    (h : sizeTMax < num1 * num2) : IsMultiplyError num1 num2 = true := by
  have ha0 : num1 ≠ 0 := by
    rintro rfl
    simp at h
  simp only [IsMultiplyError, Bool.and_eq_true, decide_eq_true_eq]
  refine ⟨by omega, ?_⟩
  rw [Nat.div_lt_iff_lt_mul (by omega)]
  have hc := Nat.mul_comm num1 num2
  omega

/-- C1: the claimed exact iff for `IsMultiplyError` fails.  At
`num1 = 3`, `num2 = 6148914691236517205 = 2^64 / 3` the exact product is
`2^64 - 1 = SIZE_MAX`, which does not exceed the maximum representable
`size_t`, yet `IsMultiplyError` reports an overflow: the code's
`(max - num1 + 1) / num1 < num2` test differs from its documented condition
`max + 1 <= num1 * num2` by a floor-division boundary case. -/
theorem isMultiplyError_true_on_exact_fit :
    IsMultiplyError 3 6148914691236517205 = true ∧
    3 * 6148914691236517205 = sizeTMax := by
  constructor
  · decide
  · decide

/-- C3: whenever the exact byte count `cItems * cBytesPerItem` exceeds the
maximum representable `size_t`, both `EbmMalloc` overloads return the null
result, for every allocator behavior.  (Both overloads are straight-line
total functions: no throw, no abort.) -/
theorem ebmMalloc_overflow_returns_none :
    ∀ (malloc : Nat → Option Nat) (cItems cBytesPerItem : Nat),
      cItems ≤ sizeTMax → cBytesPerItem ≤ sizeTMax →
      sizeTMax < cItems * cBytesPerItem →
      EbmMallocCount malloc cItems cBytesPerItem = none ∧
      EbmMallocSizeof malloc cBytesPerItem cItems = none := by
  intro malloc cItems cBytesPerItem hc hb h
  have hme := isMultiplyError_of_overflow cItems cBytesPerItem hc h
  constructor
  · simp [EbmMallocCount, hme]
  · have hb1 : cBytesPerItem ≠ 1 := by
      rintro rfl
      omega
    simp [EbmMallocSizeof, hb1, hme]

/-- Witness for C3 at `cItems = 2^32`, `cBytesPerItem = 2^32` with a
never-failing allocator. -/
theorem ebmMalloc_overflow_returns_none_witness :
    ((2 ^ 32 : Nat) ≤ sizeTMax ∧ sizeTMax < 2 ^ 32 * 2 ^ 32) ∧
    EbmMallocCount (fun n => some n) (2 ^ 32) (2 ^ 32) = none ∧
    EbmMallocSizeof (fun n => some n) (2 ^ 32) (2 ^ 32) = none :=
  ⟨⟨by norm_num [sizeTMax], by norm_num [sizeTMax]⟩,
    ebmMalloc_overflow_returns_none (fun n => some n) (2 ^ 32) (2 ^ 32)
      (by norm_num [sizeTMax]) (by norm_num [sizeTMax]) (by norm_num [sizeTMax])⟩

/-- C5: `CountBitsRequired` is total (it is defined by well-founded recursion
on the halving argument) and returns the smallest bit width `w` with
`2 ^ w > maxValue`, with base case `CountBitsRequired 0 = 0`. -/
theorem countBitsRequired_spec :
    CountBitsRequired 0 = 0 ∧
    ∀ maxValue : Nat, maxValue < 2 ^ CountBitsRequired maxValue ∧
      ∀ w : Nat, maxValue < 2 ^ w → CountBitsRequired maxValue ≤ w :=
  ⟨by rw [countBitsRequired_unfold]; simp,
    fun m => ⟨countBitsRequired_lt_pow m, countBitsRequired_min m⟩⟩

/-- Witness for C5 at `maxValue = 5`: three bits are needed and sufficient. -/
theorem countBitsRequired_spec_witness :
    (5 : Nat) < 2 ^ 3 ∧ CountBitsRequired 5 ≤ 3 :=
  ⟨by norm_num, (countBitsRequired_spec.2 5).2 3 (by norm_num)⟩

/-- C4: iterating `next = wordWidth / (wordWidth / prev + 1)` from the storage
word width yields `[64, 32, 21, 16, 12, 10, 9, 8, 7, 6, 5, 4, 3, 2, 1]`:
strictly decreasing, duplicate-free, ending at 1; consecutive entries are
related by both `GetNextCountItemsBitPacked` and `GetNextBitPack`; and its
members are exactly the positive values of `wordWidth / k` for `k >= 1`. -/
theorem bitPackProgression_spec :
    bitPackProgression = [64, 32, 21, 16, 12, 10, 9, 8, 7, 6, 5, 4, 3, 2, 1] ∧
    bitPackProgression.head? = some k_cBitsForStorageType ∧
    bitPackProgression.getLast? = some 1 ∧
    List.Chain' (fun a b => b < a) bitPackProgression ∧
    bitPackProgression.Nodup ∧
    List.Chain' (fun a b => GetNextCountItemsBitPacked a = b ∧
      GetNextBitPack (a : Int) = (b : Int)) bitPackProgression ∧
    ∀ n : Nat, n ∈ bitPackProgression ↔
      0 < n ∧ ∃ k : Nat, 1 ≤ k ∧ n = k_cBitsForStorageType / k := by
  refine ⟨bitPackProgression_eq, ?_, ?_, ?_, ?_, ?_, ?_⟩
  · rw [bitPackProgression_eq, k_cBitsForStorageType_eq]
    rfl
  · rw [bitPackProgression_eq]
    decide
  · rw [bitPackProgression_eq]
    simp only [List.chain'_cons, List.chain'_singleton, and_true]
    decide
  · rw [bitPackProgression_eq]
    decide
  · rw [bitPackProgression_eq]
    simp only [GetNextCountItemsBitPacked, GetNextBitPack, k_cBitsForStorageType_eq,
      k_cItemsPerBitPackMin, k_cItemsPerBitPackDynamic, k_cItemsPerBitPackMin2,
      k_cItemsPerBitPackDynamic2, List.chain'_cons, List.chain'_singleton, and_true]
    decide
  · intro n
    rw [bitPackProgression_eq, k_cBitsForStorageType_eq]
    constructor
    · intro hn
      have hx : ∀ m ∈ ([64, 32, 21, 16, 12, 10, 9, 8, 7, 6, 5, 4, 3, 2, 1] : List Nat),
          0 < m ∧ ∃ k ∈ List.range 65, 1 ≤ k ∧ m = 64 / k := by decide
      obtain ⟨h1, k, _, hk1, hk2⟩ := hx n hn
      exact ⟨h1, k, hk1, hk2⟩
    · rintro ⟨hpos, k, hk1, rfl⟩
      by_cases hk64 : k ≤ 64
      · have hx : ∀ k ∈ List.range 65,
            k = 0 ∨ 64 / k ∈ ([64, 32, 21, 16, 12, 10, 9, 8, 7, 6, 5, 4, 3, 2, 1] : List Nat) := by
          decide
        rcases hx k (List.mem_range.mpr (by omega)) with h0 | h
        · omega
        · exact h
      · exfalso
        have hz : 64 / k = 0 := Nat.div_eq_of_lt (by omega)
        omega

/-- Witness for C4: the membership characterization instantiated at 21. -/
theorem bitPackProgression_spec_witness :
    21 ∈ bitPackProgression ↔
      0 < 21 ∧ ∃ k : Nat, 1 ≤ k ∧ 21 = k_cBitsForStorageType / k :=
  bitPackProgression_spec.2.2.2.2.2.2 21

/-- C6: for every entry of the canonical progression,
`GetCountBits` satisfies `bitsPerItem * itemsPerWord <= wordWidth` and the
division round-trips exactly. -/
theorem getCountBits_roundtrip :
    ∀ n : Nat, n ∈ bitPackProgression →
      GetCountBits n * n ≤ k_cBitsForStorageType ∧
      k_cBitsForStorageType / GetCountBits n = n := by
  intro n hn
  rw [bitPackProgression_eq] at hn
  simp only [GetCountBits, k_cBitsForStorageType_eq]
  have hx : ∀ m ∈ ([64, 32, 21, 16, 12, 10, 9, 8, 7, 6, 5, 4, 3, 2, 1] : List Nat),
      64 / m * m ≤ 64 ∧ 64 / (64 / m) = m := by decide
  exact hx n hn

/-- Witness for C6 at `itemsPerWord = 21` (bitsPerItem = 3). -/
theorem getCountBits_roundtrip_witness :
    21 ∈ bitPackProgression ∧
      GetCountBits 21 * 21 ≤ k_cBitsForStorageType ∧
      k_cBitsForStorageType / GetCountBits 21 = 21 :=
  have hmem : 21 ∈ bitPackProgression := by
    rw [bitPackProgression_eq]
    decide
  ⟨hmem, getCountBits_roundtrip 21 hmem⟩

/-- C7: `GetVectorLength` returns 1 for regression; 1 for the 2-class
descriptor under the default policy and 2 under `EXPAND_BINARY_LOGITS`; and
`N` for every `N`-class descriptor with `N` in 3..10, under both policies. -/
theorem getVectorLength_task_values :
    GetVectorLength k_regression = 1 ∧
    GetVectorLengthExpand k_regression = 1 ∧
    GetVectorLength 2 = 1 ∧
    GetVectorLengthExpand 2 = 2 ∧
    ∀ n : Int, 3 ≤ n → n ≤ 10 →
      GetVectorLength n = n.toNat ∧ GetVectorLengthExpand n = n.toNat := by
  refine ⟨by decide, by decide, by decide, by decide, ?_⟩
  intro n h3 _
  constructor
  · unfold GetVectorLength
    rw [if_neg (by omega)]
  · unfold GetVectorLengthExpand
    rw [if_neg (by omega)]

/-- Witness for C7 at the 7-class descriptor. -/
theorem getVectorLength_task_values_witness :
    ((3 : Int) ≤ 7 ∧ (7 : Int) ≤ 10) ∧
      GetVectorLength 7 = (7 : Int).toNat ∧
      GetVectorLengthExpand 7 = (7 : Int).toNat :=
  ⟨⟨by norm_num, by norm_num⟩,
    getVectorLength_task_values.2.2.2.2 7 (by norm_num) (by norm_num)⟩

/-- C8: on the descriptor domain (the reserved regression value -1, the
dynamic sentinel 0, or a positive class count), exactly one of
`IsRegression`, `IsBinaryClassification`, `IsMulticlass` holds — under the
default policy and also under `EXPAND_BINARY_LOGITS`. -/
theorem task_predicates_exactly_one :
    ∀ n : Int, (n = k_regression ∨ 0 ≤ n) →
      ((IsRegression n = true ∧ IsBinaryClassification n = false ∧
          IsMulticlass n = false) ∨
        (IsRegression n = false ∧ IsBinaryClassification n = true ∧
          IsMulticlass n = false) ∨
        (IsRegression n = false ∧ IsBinaryClassification n = false ∧
          IsMulticlass n = true)) ∧
      ((IsRegression n = true ∧ IsBinaryClassificationExpand n = false ∧
          IsMulticlassExpand n = false) ∨
        (IsRegression n = false ∧ IsBinaryClassificationExpand n = true ∧
          IsMulticlassExpand n = false) ∨
        (IsRegression n = false ∧ IsBinaryClassificationExpand n = false ∧
          IsMulticlassExpand n = true)) := by
  intro n hn
  rcases hn with rfl | hpos
  · exact ⟨by decide, by decide⟩
  · by_cases h2 : n = 2
    · subst h2
      exact ⟨by decide, by decide⟩
    · have hr : IsRegression n = false := by
        simp only [IsRegression, k_regression, decide_eq_false_iff_not]
        omega
      have hb : IsBinaryClassification n = false := by
        simp only [IsBinaryClassification, decide_eq_false_iff_not]
        omega
      have hbe : IsBinaryClassificationExpand n = false := rfl
      have hc : IsClassification n = true := by
        simp only [IsClassification, decide_eq_true_eq]
        omega
      have hm : IsMulticlass n = true := by
        simp only [IsMulticlass, hc, hb]
        rfl
      have hme : IsMulticlassExpand n = true := by
        simp only [IsMulticlassExpand, IsBinaryClassificationExpand, hc]
        rfl
      exact ⟨Or.inr (Or.inr ⟨hr, hb, hm⟩), Or.inr (Or.inr ⟨hr, hbe, hme⟩)⟩

/-- Witness for C8 at the binary descriptor 2. -/
theorem task_predicates_exactly_one_witness :
    ((2 : Int) = k_regression ∨ (0 : Int) ≤ 2) ∧
      (IsRegression 2 = false ∧ IsBinaryClassification 2 = true ∧
        IsMulticlass 2 = false) :=
  ⟨Or.inr (by norm_num),
    by
      rcases (task_predicates_exactly_one 2 (Or.inr (by norm_num))).1 with h | h | h
      · exact absurd h.1 (by decide)
      · exact h
      · exact absurd h.2.2 (by decide)⟩

/-- C10: under the default policy `GetVectorLength` collapses every
descriptor value at most 2 — including the dynamic sentinel 0 and the
descriptor 1 — to vector length 1, with no error path. -/
theorem getVectorLength_le_two_is_one :
    GetVectorLength k_dynamicClassification = 1 ∧
    GetVectorLength 1 = 1 ∧
    ∀ n : Int, n ≤ 2 → GetVectorLength n = 1 := by
  refine ⟨by decide, by decide, ?_⟩
  intro n h
  unfold GetVectorLength
  rw [if_pos h]

/-- Witness for C10 at the dynamic sentinel. -/
theorem getVectorLength_le_two_is_one_witness :
    k_dynamicClassification ≤ (2 : Int) ∧
      GetVectorLength k_dynamicClassification = 1 :=
  ⟨by decide, getVectorLength_le_two_is_one.2.2 k_dynamicClassification (by decide)⟩

/-- C2: for every pair of integer types and every `From`-representable value,
`IsNumberConvertable` answers exactly "does the value lie in `To`'s range":
the negative-signed-to-unsigned case fails via the explicit zero check, and an
unsigned source needs no lower-bound comparison because its minimum is zero. -/
theorem isNumberConvertable_iff_in_range :
    ∀ (TTo TFrom : CIntType) (number : Int), Representable TFrom number →
      (IsNumberConvertable TTo TFrom number = true ↔
        typeMin TTo ≤ number ∧ number ≤ typeMax TTo) := by
  intro TTo TFrom x hx
  obtain ⟨hlo, hhi⟩ := hx
  have hpow : (0 : Int) ≤ 2 ^ (TTo.bits - 1) := by positivity
  unfold IsNumberConvertable at *
  cases hts : TTo.signed <;> cases hfs : TFrom.signed <;>
    simp only [hts, hfs, typeMin, typeMax, Bool.false_eq_true, if_true, if_false,
      decide_eq_true_eq] at * <;> omega

/-- Witness for C2: converting the `uint64_t` value 200 to `int8_t`. -/
theorem isNumberConvertable_iff_in_range_witness :
    Representable ⟨false, 64⟩ 200 ∧
      (IsNumberConvertable ⟨true, 8⟩ ⟨false, 64⟩ 200 = true ↔
        typeMin ⟨true, 8⟩ ≤ 200 ∧ (200 : Int) ≤ typeMax ⟨true, 8⟩) :=
  ⟨⟨by norm_num [typeMin], by norm_num [typeMax]⟩,
    isNumberConvertable_iff_in_range ⟨true, 8⟩ ⟨false, 64⟩ 200
      ⟨by norm_num [typeMin], by norm_num [typeMax]⟩⟩

/-- `toLowerChar` sends only the NUL byte to zero. -/
theorem toLowerChar_eq_zero_iff (c : Nat) : toLowerChar c = 0 ↔ c = 0 := by
  unfold toLowerChar
  split <;> omega

/-- Bytes with equal lowercasings agree on being whitespace. -/
theorem isWhitespaceChar_congr (a b : Nat) (h : toLowerChar a = toLowerChar b) :
    isWhitespaceChar a = isWhitespaceChar b := by
  rw [Bool.eq_iff_iff]
  simp only [isWhitespaceChar, Bool.or_eq_true, Bool.and_eq_true, decide_eq_true_eq]
  unfold toLowerChar at h
  split at h <;> split at h <;> omega

/-- Characterization of the matching loop: with a NUL-free label it succeeds
exactly when the lowercased label is a prefix of the lowercased main string,
and then returns the main string after the match with trailing whitespace
skipped. -/
theorem matchLoop_eq (sLabel : List Nat) :
    ∀ sMain : List Nat, (∀ c ∈ sLabel, c ≠ 0) →
      matchLoop sMain sLabel =
        if sLabel.map toLowerChar <+: sMain.map toLowerChar
        then some (SkipWhitespace (sMain.drop sLabel.length))
        else none := by
  induction sLabel with
  | nil =>
    intro m _
    simp [matchLoop]
  | cons lc ls ih =>
    intro m hnz
    have hlc : lc ≠ 0 := hnz lc (List.mem_cons_self lc ls)
    have hls : ∀ c ∈ ls, c ≠ 0 := fun c hc => hnz c (List.mem_cons_of_mem lc hc)
    cases m with
    | nil =>
      have hne : ¬ toLowerChar (([] : List Nat).headD 0) = toLowerChar lc := by
        rw [List.headD_nil]
        intro he
        exact hlc ((toLowerChar_eq_zero_iff lc).mp he.symm)
      rw [matchLoop, if_neg hne, if_neg (by simp)]
    | cons mc ms =>
      rw [matchLoop, List.headD_cons, List.tail_cons]
      by_cases he : toLowerChar mc = toLowerChar lc
      · rw [if_pos he, ih ms hls]
        simp only [List.map_cons, List.cons_prefix_cons, List.length_cons,
          List.drop_succ_cons, he, eq_self_iff_true, true_and]
      · rw [if_neg he, if_neg]
        simp only [List.map_cons, List.cons_prefix_cons]
        intro hcon
        exact he hcon.1.symm

/-- `IsStringEqualsCaseInsensitive` in closed form. -/
theorem isStringEquals_eq (sMain sLabel : List Nat) (h : ∀ c ∈ sLabel, c ≠ 0) :
    IsStringEqualsCaseInsensitive sMain sLabel =
      if sLabel.map toLowerChar <+: (SkipWhitespace sMain).map toLowerChar
      then some (SkipWhitespace ((SkipWhitespace sMain).drop sLabel.length))
      else none :=
  matchLoop_eq sLabel (SkipWhitespace sMain) h

/-- Success of `IsStringEqualsCaseInsensitive` is the case-insensitive prefix
condition. -/
theorem isStringEquals_isSome_iff (sMain sLabel : List Nat)
    (h : ∀ c ∈ sLabel, c ≠ 0) :
    (IsStringEqualsCaseInsensitive sMain sLabel).isSome ↔
      sLabel.map toLowerChar <+: (SkipWhitespace sMain).map toLowerChar := by
  rw [isStringEquals_eq sMain sLabel h]
  split
  · next hc => simp [hc]
  · next hc => simp [hc]

/-- `SkipWhitespace` commutes with replacing a string by one of equal
lowercasing. -/
theorem skipWhitespace_map_congr :
    ∀ s t : List Nat, s.map toLowerChar = t.map toLowerChar →
      (SkipWhitespace s).map toLowerChar = (SkipWhitespace t).map toLowerChar := by
  intro s
  induction s with
  | nil =>
    intro t h
    cases t with
    | nil => rfl
    | cons d t2 => simp at h
  | cons c s2 ih =>
    intro t h
    cases t with
    | nil => simp at h
    | cons d t2 =>
      simp only [List.map_cons, List.cons.injEq] at h
      obtain ⟨h1, h2⟩ := h
      have hws := isWhitespaceChar_congr c d h1
      by_cases hc : isWhitespaceChar c = true
      · have hd : isWhitespaceChar d = true := by rw [← hws]; exact hc
        rw [SkipWhitespace, SkipWhitespace, if_pos hc, if_pos hd]
        exact ih t2 h2
      · have hd : ¬ isWhitespaceChar d = true := by rw [← hws]; exact hc
        rw [SkipWhitespace, SkipWhitespace, if_neg hc, if_neg hd]
        simp only [List.map_cons, h1, h2]

/-- Equal lowercasings preserve NUL-freeness. -/
theorem map_toLower_nonzero (l l2 : List Nat)
    (h : l2.map toLowerChar = l.map toLowerChar) (hnz : ∀ c ∈ l, c ≠ 0) :
    ∀ c ∈ l2, c ≠ 0 := by
  intro c hc he
  have hmem : toLowerChar c ∈ l.map toLowerChar :=
    h ▸ List.mem_map_of_mem toLowerChar hc
  obtain ⟨d, hd, hde⟩ := List.mem_map.mp hmem
  subst he
  exact hnz d hd ((toLowerChar_eq_zero_iff d).mp hde)

/-- C9: for every main string and NUL-free label, the match succeeds iff the
main string — after leading whitespace is skipped — begins with the label
compared ASCII-case-insensitively; on success the result points at the first
non-whitespace character after the match; and replacing either string by one
of equal lowercasing (in particular, changing ASCII letter case) never
changes whether it matches. -/
theorem isStringEqualsCaseInsensitive_spec :
    ∀ sMain sLabel : List Nat, (∀ c ∈ sLabel, c ≠ 0) →
      (IsStringEqualsCaseInsensitive sMain sLabel =
        if sLabel.map toLowerChar <+: (SkipWhitespace sMain).map toLowerChar
        then some (SkipWhitespace ((SkipWhitespace sMain).drop sLabel.length))
        else none) ∧
      ((IsStringEqualsCaseInsensitive sMain sLabel).isSome ↔
        sLabel.map toLowerChar <+: (SkipWhitespace sMain).map toLowerChar) ∧
      ∀ sMain2 sLabel2 : List Nat,
        sMain2.map toLowerChar = sMain.map toLowerChar →
        sLabel2.map toLowerChar = sLabel.map toLowerChar →
        ((IsStringEqualsCaseInsensitive sMain2 sLabel2).isSome ↔
          (IsStringEqualsCaseInsensitive sMain sLabel).isSome) := by
  intro sMain sLabel h
  refine ⟨isStringEquals_eq sMain sLabel h, isStringEquals_isSome_iff sMain sLabel h, ?_⟩
  intro m2 l2 hm hl
  have h2 : ∀ c ∈ l2, c ≠ 0 := map_toLower_nonzero sLabel l2 hl h
  rw [isStringEquals_isSome_iff m2 l2 h2, isStringEquals_isSome_iff sMain sLabel h,
    hl, skipWhitespace_map_congr m2 sMain hm]

/-- Witness for C9: the main string "  LOG_LOSS " (as bytes, with whitespace)
against the label "log_loss"; the match succeeds and consumes everything. -/
theorem isStringEqualsCaseInsensitive_spec_witness :
    (∀ c ∈ ([108, 111, 103, 95, 108, 111, 115, 115] : List Nat), c ≠ 0) ∧
      ((IsStringEqualsCaseInsensitive
          [32, 76, 79, 71, 95, 76, 79, 83, 83, 32]
          [108, 111, 103, 95, 108, 111, 115, 115]).isSome ↔
        ([108, 111, 103, 95, 108, 111, 115, 115] : List Nat).map toLowerChar <+:
          (SkipWhitespace [32, 76, 79, 71, 95, 76, 79, 83, 83, 32]).map toLowerChar) ∧
      IsStringEqualsCaseInsensitive [32, 76, 79, 71, 95, 76, 79, 83, 83, 32]
        [108, 111, 103, 95, 108, 111, 115, 115] = some [] :=
  ⟨by decide,
    (isStringEqualsCaseInsensitive_spec [32, 76, 79, 71, 95, 76, 79, 83, 83, 32]
      [108, 111, 103, 95, 108, 111, 115, 115] (by decide)).2.1,
    by decide⟩

end EbmInternal
